import Mathlib

/-!
Verification of the row-grouping / shaping layer of the `api-srs-fastify`
service (`src/index.js`) against its natural-language specification.

The service is a thin read-only HTTP API.  Its only algorithmic content is:

* `decodeHtml` (src/index.js:7-15): chained global literal-string
  replacements decoding HTML entities;
* the `/api/faqs` handler's `faqs.reduce` grouping (src/index.js:310-327):
  groups FAQ rows into categories by `category_name`, accumulating into an
  array (insertion order);
* the `/api/menu` handler's `rows.reduce` grouping (src/index.js:358-385):
  groups left-joined menu rows into categories by `category_id`,
  accumulating into a plain JS object keyed by the numeric `category_id`
  and finishing with `Object.values`.  Per ECMA-262 (OrdinaryOwnPropertyKeys)
  the own keys of a plain object that are array indices — which the
  non-negative integer `category_id`s are — enumerate in ascending numeric
  order, so `Object.values` yields the categories in ascending key order,
  not in insertion order;
* the per-route `try`/`catch` that converts any thrown error into an
  HTTP 500 response.

JavaScript strings are embedded as `List Char`; MySQL `NULL` / absent
fields as `Option`; thrown exceptions as `Except`.  JS truthiness tests on
these fields (`if (row.id)`, `x || default`, `row.badge && …`) are embedded
by explicit truthiness functions (`none`, `0` and the empty string are
falsy).
-/

/-- JavaScript strings are modelled as lists of characters. -/
abbrev Str := List Char

/-- Boolean prefix test on character lists (the matching step of a literal
global regex replacement). -/
def isPref : List Char → List Char → Bool
  | [], _ => true
  | _ :: _, [] => false
  | a :: as, b :: bs => a == b && isPref as bs

/-- Fuel-indexed engine for `String.prototype.replace` with a global literal
pattern: scan left to right; at each position, if the pattern matches,
emit the replacement and resume after the matched text (the replacement is
not re-scanned); otherwise copy one character.  The fuel argument only
makes the recursion structural; it is always called with enough fuel
(`s.length`) to finish the scan. -/
def replaceFuel (pat rep : List Char) : Nat → List Char → List Char
  | _, [] => []
  | 0, c :: s => c :: s
  | n + 1, c :: s =>
    if isPref pat (c :: s) then
      rep ++ replaceFuel pat rep n (List.drop (pat.length - 1) s)
    else
      c :: replaceFuel pat rep n s

/-- `str.replace(/pat/g, rep)` for a literal (regex-metacharacter-free)
pattern `pat`. -/
def replaceAll (pat rep s : List Char) : List Char :=
  replaceFuel pat rep s.length s

/-- `decodeHtml` (src/index.js:7-15): the seven chained global replacements,
in source order. -/
def decodeHtml (s : Str) : Str :=
  replaceAll "\\u003E".toList ">".toList
    (replaceAll "\\u003C".toList "<".toList
      (replaceAll "&amp;".toList "&".toList
        (replaceAll "&quot;".toList "\"".toList
          (replaceAll "&#039;".toList [Char.ofNat 39]
            (replaceAll "&gt;".toList ">".toList
              (replaceAll "&lt;".toList "<".toList s))))))

/-- The optional chaining `str?.replace(…)…` of the source: on a missing
(`undefined`/`null`) argument `decodeHtml` returns it unchanged instead of
raising. -/
def decodeHtmlOpt (s : Option Str) : Option Str :=
  s.map decodeHtml

/-- The keys of an insertion-ordered map, in first-occurrence order: the JS
group-by accumulators create one entry per distinct key, at the position of
the key's first appearance. -/
def firstOccs {α : Type} [DecidableEq α] : List α → List α
  | [] => []
  | x :: xs => x :: (firstOccs xs).filter (fun y => y != x)

/-- Insert a key into an ascending list (insertion sort step). -/
def insertKey (k : Nat) : List Nat → List Nat
  | [] => [k]
  | x :: xs => if k ≤ x then k :: x :: xs else x :: insertKey k xs

/-- Sort numeric keys ascending.  ECMAScript enumerates the array-index keys
of a plain object (here: the non-negative integer `category_id`s) in
ascending numeric order, regardless of insertion order. -/
def sortKeys : List Nat → List Nat
  | [] => []
  | k :: ks => insertKey k (sortKeys ks)

/-- Key lookup in an insertion-ordered map (`acc[categoryId]`). -/
def lookupVal {β : Type} : List (Nat × β) → Nat → Option β
  | [], _ => none
  | (k, v) :: ps, q => if q = k then some v else lookupVal ps q

/-- One row of the `/api/faqs` query: `f.id, f.title, f.text, f.category_id,
c.name as category_name` (inner join, so every field is present). -/
structure FaqRow where
  id : Nat
  title : Str
  text : Str
  category_id : Nat
  category_name : Str
deriving DecidableEq

/-- A `{ title, text }` item of the grouped FAQ output. -/
structure FaqItem where
  title : Str
  text : Str
deriving DecidableEq

/-- A `{ name, items }` category of the grouped FAQ output. -/
structure FaqCategory where
  name : Str
  items : List FaqItem
deriving DecidableEq

/-- The `item` object built for each row (src/index.js:313-316). -/
def faqItem (f : FaqRow) : FaqItem :=
  { title := f.title, text := f.text }

/-- `category.items.push(item)` after `acc.find(cat => cat.name === …)`:
append the item to the first category whose name matches. -/
def pushFaqItem : List FaqCategory → Str → FaqItem → List FaqCategory
  | [], _, _ => []
  | c :: cs, n, it =>
    if c.name = n then { c with items := c.items ++ [it] } :: cs
    else c :: pushFaqItem cs n it

/-- One step of the `faqs.reduce` accumulator (src/index.js:311-326):
look the category up by name; push the item into it, or append a fresh
category holding the item. -/
def faqStep (acc : List FaqCategory) (f : FaqRow) : List FaqCategory :=
  if (acc.find? (fun c => c.name == f.category_name)).isSome then
    pushFaqItem acc f.category_name (faqItem f)
  else acc ++ [{ name := f.category_name, items := [faqItem f] }]

def faqReduce : List FaqRow → List FaqCategory → List FaqCategory
  | [], acc => acc
  | f :: fs, acc => faqReduce fs (faqStep acc f)

/-- The `categories` array computed by the `/api/faqs` handler. -/
def apiFaqs (faqs : List FaqRow) : List FaqCategory :=
  faqReduce faqs []

/-- The category entry the specification prescribes for name `n`: all rows
with that `category_name`, as `{title, text}` pairs, in row order. -/
def specFaqCat (faqs : List FaqRow) (n : Str) : FaqCategory :=
  { name := n, items := (faqs.filter (fun f => f.category_name == n)).map faqItem }

/-- The grouped FAQ output the specification prescribes: one entry per
distinct category name, in first-occurrence order. -/
def specFaqs (faqs : List FaqRow) : List FaqCategory :=
  (firstOccs (faqs.map FaqRow.category_name)).map (specFaqCat faqs)

/-- One row of the `/api/menu` query (src/index.js:339-356): category fields
from `menu_category`, item fields LEFT-JOINed from `menu_item` (so every
item field may be SQL `NULL`, modelled as `none`).  `price` is modelled by
the string `toString()` would yield, since the handler only ever calls
`row.price.toString()`. -/
structure MenuRow where
  category_id : Nat
  category_name : Str
  category_slug : Str
  category_description : Str
  id : Option Nat
  title : Str
  image : Option Str
  price : Option Str
  item_description : Str
  badge : Option Str
  rating : Option Nat
  currency : Option Str
deriving DecidableEq

/-- An item object of the grouped menu output (src/index.js:371-379).
`badge := none` models the absence of the `badge` key. -/
structure MenuItem where
  image : Str
  title : Str
  price : Str
  currency : Str
  rating : Nat
  text : Str
  badge : Option Str
deriving DecidableEq

/-- A category object of the grouped menu output (src/index.js:362-367). -/
structure MenuCategory where
  name : Str
  slug : Str
  description : Str
  items : List MenuItem
deriving DecidableEq

/-- JS truthiness of a nullable number (`if (row.id)`): `null`/`undefined`
and `0` are falsy. -/
def jsTruthyNat : Option Nat → Bool
  | none => false
  | some n => !(n == 0)

/-- JS truthiness of a nullable string (`row.badge && …`): `null`/`undefined`
and the empty string are falsy. -/
def jsTruthyStr : Option Str → Bool
  | none => false
  | some s => !s.isEmpty

/-- `a || d` for a nullable string `a`: yields `d` exactly when `a` is falsy. -/
def jsOrStr : Option Str → Str → Str
  | none, d => d
  | some s, d => if s.isEmpty then d else s

/-- `a || d` for a nullable number `a`: yields `d` exactly when `a` is falsy. -/
def jsOrNat : Option Nat → Nat → Nat
  | none, d => d
  | some n, d => if n == 0 then d else n

def defaultImage : Str := "/img/menu/default.jpg".toList

/-- `...(row.badge && { badge: decodeHtml(row.badge) })`: the `badge` key is
added only when `row.badge` is truthy. -/
def jsBadge : Option Str → Option Str
  | none => none
  | some s => if s.isEmpty then none else some (decodeHtml s)

/-- The item object pushed for a row (src/index.js:371-379).
`row.price.toString()` throws a `TypeError` when `price` is `null`; that
exception is modelled by the `Except.error` branch. -/
def buildItem (row : MenuRow) : Except Str MenuItem :=
  match row.price with
  | none =>
    Except.error "TypeError: Cannot read properties of null (reading toString)".toList
  | some p => Except.ok
    { image := jsOrStr row.image defaultImage
      title := row.title
      price := p
      currency := jsOrStr row.currency "$".toList
      rating := jsOrNat row.rating 5
      text := row.item_description
      badge := jsBadge row.badge }

/-- The fresh accumulator entry created on a key's first occurrence
(src/index.js:361-368). -/
def newCategory (row : MenuRow) : MenuCategory :=
  { name := row.category_name
    slug := row.category_slug
    description := row.category_description
    items := [] }

def catPush (c : MenuCategory) (it : MenuItem) : MenuCategory :=
  { c with items := c.items ++ [it] }

/-- `acc[categoryId].items.push(item)`: append the item to the entry with
the given key (object keys are unique). -/
def pushItem (acc : List (Nat × MenuCategory)) (k : Nat) (it : MenuItem) :
    List (Nat × MenuCategory) :=
  acc.map (fun p => if p.1 = k then (p.1, catPush p.2 it) else p)

/-- One step of the `rows.reduce` accumulator (src/index.js:358-383).  The
accumulator object is modelled as an insertion-ordered association list
with unique keys. -/
def menuStep (acc : List (Nat × MenuCategory)) (row : MenuRow) :
    Except Str (List (Nat × MenuCategory)) :=
  let acc1 :=
    if (lookupVal acc row.category_id).isSome then acc
    else acc ++ [(row.category_id, newCategory row)]
  if jsTruthyNat row.id then
    match buildItem row with
    | Except.ok it => Except.ok (pushItem acc1 row.category_id it)
    | Except.error e => Except.error e
  else Except.ok acc1

def menuReduce :
    List MenuRow → List (Nat × MenuCategory) → Except Str (List (Nat × MenuCategory))
  | [], acc => Except.ok acc
  | row :: rest, acc =>
    match menuStep acc row with
    | Except.ok acc2 => menuReduce rest acc2
    | Except.error e => Except.error e

/-- `Object.values(categories)` (src/index.js:385): enumerate the entries in
ascending numeric key order — ECMA-262 enumerates array-index keys of a
plain object ascending, regardless of insertion order. -/
def objectValues (acc : List (Nat × MenuCategory)) : List MenuCategory :=
  (sortKeys (acc.map Prod.fst)).filterMap (lookupVal acc)

/-- The `categories` array computed by the `/api/menu` handler, or the
exception escaping from the reduce. -/
def apiMenu (rows : List MenuRow) : Except Str (List MenuCategory) :=
  match menuReduce rows [] with
  | Except.ok acc => Except.ok (objectValues acc)
  | Except.error e => Except.error e

/-- Total variant of `buildItem`: agrees with it whenever `buildItem`
succeeds. -/
def specItem (row : MenuRow) : MenuItem :=
  { image := jsOrStr row.image defaultImage
    title := row.title
    price := row.price.getD []
    currency := jsOrStr row.currency "$".toList
    rating := jsOrNat row.rating 5
    text := row.item_description
    badge := jsBadge row.badge }

/-- The rows contributing an item to category `k`: key matches and the item
identifier is truthy. -/
def isItemRow (k : Nat) (r : MenuRow) : Bool :=
  r.category_id == k && jsTruthyNat r.id

/-- The category entry prescribed for key `k`: header fields from the first
row with that key, items from all its truthy-id rows in row order. -/
def specCatFor (rows : List MenuRow) (k : Nat) : MenuCategory :=
  match rows.find? (fun r => r.category_id == k) with
  | some r =>
    { name := r.category_name
      slug := r.category_slug
      description := r.category_description
      items := (rows.filter (isItemRow k)).map specItem }
  | none => { name := [], slug := [], description := [], items := [] }

/-- The accumulator contents after processing `rows`: one entry per distinct
key in first-occurrence order. -/
def specMenuAcc (rows : List MenuRow) : List (Nat × MenuCategory) :=
  (firstOccs (rows.map MenuRow.category_id)).map (fun k => (k, specCatFor rows k))

/-- The grouped menu output in first-occurrence key order — the ordering
claimed by the specification text. -/
def specMenuFirstOcc (rows : List MenuRow) : List MenuCategory :=
  (firstOccs (rows.map MenuRow.category_id)).map (specCatFor rows)

/-- The grouped menu output in ascending key order — the ordering
`Object.values` actually produces. -/
def specMenuSorted (rows : List MenuRow) : List MenuCategory :=
  (sortKeys (firstOccs (rows.map MenuRow.category_id))).map (specCatFor rows)

instance {ε α : Type} [DecidableEq ε] [DecidableEq α] :
    DecidableEq (Except ε α) := fun x y =>
  match x, y with
  | Except.ok a, Except.ok b =>
    if h : a = b then Decidable.isTrue (by rw [h])
    else Decidable.isFalse (fun hc => h (Except.ok.inj hc))
  | Except.error a, Except.error b =>
    if h : a = b then Decidable.isTrue (by rw [h])
    else Decidable.isFalse (fun hc => h (Except.error.inj hc))
  | Except.ok _, Except.error _ => Decidable.isFalse (fun hc => Except.noConfusion hc)
  | Except.error _, Except.ok _ => Decidable.isFalse (fun hc => Except.noConfusion hc)

/-- Reply of a data route: the awaited handler value (HTTP 200) or the
`reply.code(500).send({ error: message })` of the catch block. -/
inductive RouteReply (α : Type) where
  | ok (body : α)
  | err (status : Nat) (error : Str)
deriving DecidableEq

/-- A plain data route (`/api/users`, `/api/images`, `/api/reviews`,
`/api/menu-categories`): return the rows, or convert the thrown error to a
500 carrying its message. -/
def dataRoute {α : Type} (q : Except Str α) : RouteReply α :=
  match q with
  | Except.ok rows => RouteReply.ok rows
  | Except.error e => RouteReply.err 500 e

/-- Reply of `/api/db-health` (src/index.js:268-277). -/
inductive DbHealthReply where
  | ok (status message : Str)
  | err (httpStatus : Nat) (status message : Str)
deriving DecidableEq

/-- `/api/db-health`: ping the pool; convert a thrown error to
`500 { status: ERROR, message }`. -/
def dbHealthRoute (ping : Except Str Unit) : DbHealthReply :=
  match ping with
  | Except.ok _ =>
    DbHealthReply.ok "OK".toList "Database connection is successful".toList
  | Except.error e => DbHealthReply.err 500 "ERROR".toList e

/-- `/api/menu` (src/index.js:337-391): the catch block receives both query
errors and exceptions thrown by the grouping code inside the `try`. -/
def menuRoute (q : Except Str (List MenuRow)) : RouteReply (List MenuCategory) :=
  match q with
  | Except.error e => RouteReply.err 500 e
  | Except.ok rows =>
    match apiMenu rows with
    | Except.ok cats => RouteReply.ok cats
    | Except.error e => RouteReply.err 500 e

/-- `/api/faqs` (src/index.js:297-335): the grouping is total, so only query
errors reach the catch block. -/
def faqRoute (q : Except Str (List FaqRow)) : RouteReply (List FaqCategory) :=
  match q with
  | Except.error e => RouteReply.err 500 e
  | Except.ok rows => RouteReply.ok (apiFaqs rows)

/-- Body of the `/api/health` reply. -/
structure HealthBody where
  status : Str
deriving DecidableEq

/-- `/api/health` (src/index.js:264-266): `async () => ({ status: OK })`.
The handler closure does not reference the pool; the ambient database state
is passed in only to express that the reply cannot depend on it. -/
def healthRoute (_dbState : Except Str Unit) : RouteReply HealthBody :=
  RouteReply.ok { status := "OK".toList }

/-- A menu row with every nullable field `NULL`; concrete inputs below are
variations of it. -/
def baseRow : MenuRow :=
  { category_id := 1
    category_name := "A".toList
    category_slug := "a".toList
    category_description := "da".toList
    id := none
    title := "t".toList
    image := none
    price := none
    item_description := "x".toList
    badge := none
    rating := none
    currency := none }

/-- Two childless categories arriving in descending key order. -/
def cexRowsC1 : List MenuRow :=
  [{ baseRow with
      category_id := 2
      category_name := "B".toList
      category_slug := "b".toList },
   baseRow]

/-- Two childless categories arriving in ascending key order. -/
def witRowsC1 : List MenuRow :=
  [baseRow,
   { baseRow with
      category_id := 2
      category_name := "B".toList
      category_slug := "b".toList }]

/-- A row whose item identifier is `0`: non-null but falsy. -/
def cexRowC2 : MenuRow :=
  { baseRow with
      id := some 0
      price := some "9".toList }

/-- One item row and one childless category. -/
def witRowsC2 : List MenuRow :=
  [{ baseRow with
      id := some 7
      price := some "10".toList },
   { baseRow with
      category_id := 2
      category_name := "B".toList }]

/-- An item row whose image, currency and rating are present but falsy. -/
def cexRowC3 : MenuRow :=
  { baseRow with
      id := some 1
      price := some "10".toList
      image := some []
      currency := some []
      rating := some 0 }

/-- An item row whose image, currency and rating are present and truthy. -/
def witRowC3 : MenuRow :=
  { baseRow with
      id := some 1
      price := some "10".toList
      image := some "i.jpg".toList
      currency := some "Rp".toList
      rating := some 4 }

/-- An item row with a truthy id and a `NULL` price. -/
def cexRowC4 : MenuRow :=
  { baseRow with
      id := some 3 }

/-- An item row carrying an entity-escaped badge. -/
def witRowC6 : MenuRow :=
  { baseRow with
      id := some 1
      price := some "5".toList
      badge := some "a&amp;b".toList }

def witItemC6 : MenuItem := specItem witRowC6

/-- An item row whose badge is present but the empty string. -/
def witRowC9 : MenuRow :=
  { baseRow with
      id := some 1
      price := some "5".toList
      badge := some [] }

def witItemC9 : MenuItem := specItem witRowC9

theorem isPref_iff (p s : List Char) : isPref p s = true ↔ p <+: s := by
  induction p generalizing s with
  | nil => simp [isPref]
  | cons a as ih =>
    cases s with
    | nil => simp [isPref]
    | cons b bs =>
      simp only [isPref, Bool.and_eq_true, beq_iff_eq, ih]
      constructor
      · rintro ⟨rfl, t, rfl⟩
        exact ⟨t, rfl⟩
      · rintro ⟨t, ht⟩
        cases ht
        exact ⟨rfl, t, rfl⟩

theorem isPref_eq_false_of_ne_head {p s : List Char} (hp : p ≠ [])
    (hs : s ≠ []) (h : p.head? ≠ s.head?) : isPref p s = false := by
  cases p with
  | nil => exact absurd rfl hp
  | cons a as =>
    cases s with
    | nil => exact absurd rfl hs
    | cons b bs =>
      simp only [List.head?] at h
      have hab : a ≠ b := fun hab => h (by rw [hab])
      simp [isPref, hab]

theorem head_eq_of_isPrefix {p w : List Char} (hp : p ≠ []) (h : p <+: w) :
    w.head? = p.head? := by
  obtain ⟨t, rfl⟩ := h
  cases p with
  | nil => exact absurd rfl hp
  | cons a as => rfl

theorem append_drop_of_isPref {pat : List Char} (hne : pat ≠ []) {c : Char}
    {s : List Char} (h : isPref pat (c :: s) = true) :
    pat ++ List.drop (pat.length - 1) s = c :: s := by
  obtain ⟨t, ht⟩ := (isPref_iff pat (c :: s)).1 h
  have hdrop : List.drop pat.length (pat ++ t) = t := List.drop_left pat t
  cases pat with
  | nil => exact absurd rfl hne
  | cons p ps =>
    rw [ht] at hdrop
    simp only [List.length_cons, List.drop_succ_cons] at hdrop
    rw [List.length_cons, Nat.add_sub_cancel, hdrop, ht]

theorem mem_replaceFuel_of_mem_rep {c : Char} {pat rep : List Char}
    (hc : c ∈ rep) : ∀ n s, c ∈ s → c ∈ replaceFuel pat rep n s := by
  intro n
  induction n with
  | zero =>
    intro s hs
    cases s with
    | nil => simp at hs
    | cons a t => simpa [replaceFuel] using hs
  | succ n ih =>
    intro s hs
    cases s with
    | nil => simp at hs
    | cons a t =>
      by_cases hm : isPref pat (a :: t) = true
      · simp [replaceFuel, hm, hc]
      · rw [Bool.not_eq_true] at hm
        simp only [replaceFuel, hm, Bool.false_eq_true, if_false, List.mem_cons]
        rcases List.mem_cons.1 hs with h | h
        · exact Or.inl h
        · exact Or.inr (ih t h)

theorem mem_replaceFuel_of_not_mem_pat {c : Char} {pat rep : List Char}
    (hp : pat ≠ []) (hc : c ∉ pat) : ∀ n s, c ∈ s → c ∈ replaceFuel pat rep n s := by
  intro n
  induction n with
  | zero =>
    intro s hs
    cases s with
    | nil => simp at hs
    | cons a t => simpa [replaceFuel] using hs
  | succ n ih =>
    intro s hs
    cases s with
    | nil => simp at hs
    | cons a t =>
      by_cases hm : isPref pat (a :: t) = true
      · have key := append_drop_of_isPref hp hm
        have hmem : c ∈ pat ++ List.drop (pat.length - 1) t := by
          rw [key]; exact hs
        rcases List.mem_append.1 hmem with h | h
        · exact absurd h hc
        · simp only [replaceFuel, hm, if_true, List.mem_append]
          exact Or.inr (ih _ h)
      · rw [Bool.not_eq_true] at hm
        simp only [replaceFuel, hm, Bool.false_eq_true, if_false, List.mem_cons]
        rcases List.mem_cons.1 hs with h | h
        · exact Or.inl h
        · exact Or.inr (ih t h)

theorem replaceFuel_id_of_no_occ {pat rep : List Char} :
    ∀ n s, ¬ pat <:+: s → replaceFuel pat rep n s = s := by
  intro n
  induction n with
  | zero =>
    intro s _
    cases s <;> rfl
  | succ n ih =>
    intro s hs
    cases s with
    | nil => rfl
    | cons a t =>
      have hm : isPref pat (a :: t) = false := by
        by_contra h
        rw [Bool.not_eq_false] at h
        exact hs (List.IsPrefix.isInfix ((isPref_iff pat (a :: t)).1 h))
      simp only [replaceFuel, hm, Bool.false_eq_true, if_false]
      rw [ih t (fun h => hs (List.infix_cons h))]

theorem replaceFuel_cons (pat rep : List Char) (n : Nat) (c : Char) (s : List Char) :
    replaceFuel pat rep (n + 1) (c :: s) =
      if isPref pat (c :: s) then
        rep ++ replaceFuel pat rep n (List.drop (pat.length - 1) s)
      else c :: replaceFuel pat rep n s := rfl

theorem replaceFuel_append_emit (pat rep : List Char) :
    ∀ (u : List Char), ∀ y n,
      (∀ e, e <:+ u → e ≠ [] → isPref pat (e ++ y) = false) →
      ∃ z, replaceFuel pat rep n (u ++ y) = u ++ z := by
  intro u
  induction u with
  | nil => exact fun y n _ => ⟨replaceFuel pat rep n y, rfl⟩
  | cons a u' ih =>
    intro y n hcond
    cases n with
    | zero => exact ⟨y, rfl⟩
    | succ n =>
      have hm : isPref pat (a :: (u' ++ y)) = false := by
        have := hcond (a :: u') (List.suffix_refl _) (by simp)
        simpa using this
      obtain ⟨z, hz⟩ :=
        ih y n (fun e he hne => hcond e (he.trans (List.suffix_cons a u')) hne)
      refine ⟨z, ?_⟩
      show replaceFuel pat rep (n + 1) (a :: (u' ++ y)) = a :: (u' ++ z)
      rw [replaceFuel_cons, hm]
      simp only [Bool.false_eq_true, if_false]
      rw [hz]

theorem infix_of_infix_pat_append {amp pat t : List Char}
    (hA : ¬ amp <:+: pat)
    (hB : ∀ e ∈ pat.tails, e <+: amp → e = [])
    (h : amp <:+: pat ++ t) : amp <:+: t := by
  obtain ⟨x, y, hxy⟩ := h
  rw [List.append_assoc] at hxy
  rcases List.append_eq_append_iff.1 hxy with ⟨e, hpat, hey⟩ | ⟨e, _, ht⟩
  · rcases List.append_eq_append_iff.1 hey with ⟨f, hef, _⟩ | ⟨f, hamp, htf⟩
    · exact absurd ⟨x, f, by rw [List.append_assoc, ← hef, ← hpat]⟩ hA
    · have he : e = [] := hB e ((List.mem_tails _ _).2 ⟨x, hpat.symm⟩) ⟨f, hamp.symm⟩
      subst he
      simp only [List.nil_append] at hamp
      exact ⟨[], y, by rw [List.nil_append, hamp, ← htf]⟩
  · exact ⟨e, y, by rw [List.append_assoc, ← ht]⟩

theorem amp_infix_replaceFuel {pat rep : List Char}
    (hp : pat ≠ []) (hh : pat.head? = some '&')
    (hA : ¬ ("&amp;".toList <:+: pat))
    (hB : ∀ e ∈ pat.tails, e <+: "&amp;".toList → e = []) :
    ∀ n s, "&amp;".toList <:+: s → "&amp;".toList <:+: replaceFuel pat rep n s := by
  intro n
  induction n with
  | zero =>
    intro s hs
    cases s with
    | nil => exact absurd (List.infix_nil.1 hs) (by decide)
    | cons a t => exact hs
  | succ n ih =>
    intro s hs
    cases s with
    | nil => exact absurd (List.infix_nil.1 hs) (by decide)
    | cons a t =>
      by_cases hm : isPref pat (a :: t) = true
      · have key := append_drop_of_isPref hp hm
        have h2 : "&amp;".toList <:+: pat ++ List.drop (pat.length - 1) t := by
          rw [key]; exact hs
        have h4 := ih _ (infix_of_infix_pat_append hA hB h2)
        rw [replaceFuel_cons, hm]
        simp only [if_true]
        exact List.IsInfix.trans h4 (List.IsSuffix.isInfix (List.suffix_append rep _))
      · rw [Bool.not_eq_true] at hm
        rw [replaceFuel_cons, hm]
        simp only [Bool.false_eq_true, if_false]
        obtain ⟨x, y, hxy⟩ := hs
        cases x with
        | nil =>
          simp only [List.nil_append] at hxy
          have hamp : "&amp;".toList = '&' :: "amp;".toList := by decide
          rw [hamp, List.cons_append] at hxy
          have ha : '&' = a := (List.cons.injEq _ _ _ _ ▸ hxy).1
          have ht : "amp;".toList ++ y = t := (List.cons.injEq _ _ _ _ ▸ hxy).2
          have hcond : ∀ e, e <:+ ("amp;".toList : List Char) → e ≠ [] →
              isPref pat (e ++ y) = false := by
            intro e he hne
            cases e with
            | nil => exact absurd rfl hne
            | cons c e' =>
              apply isPref_eq_false_of_ne_head hp (by simp)
              rw [hh]
              have hc : c ∈ ("amp;".toList : List Char) := he.subset (by simp)
              have hnc : c ≠ '&' := by
                intro hc'
                rw [hc'] at hc
                exact absurd hc (by decide)
              simp only [List.cons_append, List.head?]
              intro hcontra
              exact hnc (by injection hcontra with h; exact h.symm)
          obtain ⟨z, hz⟩ := replaceFuel_append_emit pat rep
            "amp;".toList y n hcond
          refine List.IsPrefix.isInfix
            (show ("&amp;".toList : List Char) <+: a :: replaceFuel pat rep n t
              from ?_)
          rw [← ht, hz, hamp, ← ha]
          exact ⟨z, rfl⟩
        | cons b x' =>
          have hbt : b :: (x' ++ "&amp;".toList ++ y) = a :: t := hxy
          have ht : x' ++ "&amp;".toList ++ y = t := (List.cons.injEq _ _ _ _ ▸ hbt).2
          exact List.infix_cons (ih t ⟨x', y, ht⟩)

theorem amp_infix_replaceAll (pat rep : List Char)
    (hp : pat ≠ []) (hh : pat.head? = some '&')
    (hA : ¬ ("&amp;".toList <:+: pat))
    (hB : ∀ e ∈ pat.tails, e <+: "&amp;".toList → e = []) (s : List Char)
    (h : "&amp;".toList <:+: s) : "&amp;".toList <:+: replaceAll pat rep s :=
  amp_infix_replaceFuel hp hh hA hB s.length s h

theorem mem_replaceAll_of_mem_rep (pat rep : List Char) (c : Char)
    (hc : c ∈ rep) (s : List Char) (hs : c ∈ s) : c ∈ replaceAll pat rep s :=
  mem_replaceFuel_of_mem_rep hc s.length s hs

theorem mem_replaceAll_of_not_mem_pat (pat rep : List Char) (c : Char)
    (hp : pat ≠ []) (hc : c ∉ pat) (s : List Char) (hs : c ∈ s) :
    c ∈ replaceAll pat rep s :=
  mem_replaceFuel_of_not_mem_pat hp hc s.length s hs

theorem replaceAll_id_of_no_occ {pat rep s : List Char}
    (h : ¬ pat <:+: s) : replaceAll pat rep s = s :=
  replaceFuel_id_of_no_occ s.length s h

/-- If a badge value contains the entity `&amp;`, its decoding contains a
literal ampersand: the four earlier replacements cannot overlap an
occurrence of `&amp;`, the fifth rewrites it to `&`, and the last two
cannot consume a `&`. -/
theorem amp_mem_decodeHtml {b : Str} (h : "&amp;".toList <:+: b) :
    '&' ∈ decodeHtml b := by
  have h1 := amp_infix_replaceAll "&lt;".toList "<".toList
    (by decide) (by decide) (by decide) (by decide) b h
  have h2 := amp_infix_replaceAll "&gt;".toList ">".toList
    (by decide) (by decide) (by decide) (by decide) _ h1
  have h3 := amp_infix_replaceAll "&#039;".toList [Char.ofNat 39]
    (by decide) (by decide) (by decide) (by decide) _ h2
  have h4 := amp_infix_replaceAll "&quot;".toList "\"".toList
    (by decide) (by decide) (by decide) (by decide) _ h3
  have h5 := mem_replaceAll_of_mem_rep "&amp;".toList "&".toList '&'
    (by decide) _ (h4.subset (by decide))
  have h6 := mem_replaceAll_of_not_mem_pat "\\u003C".toList "<".toList '&'
    (by decide) (by decide) _ h5
  have h7 := mem_replaceAll_of_not_mem_pat "\\u003E".toList ">".toList '&'
    (by decide) (by decide) _ h6
  exact h7

/-- Decoding is a no-op on a string containing none of the seven escape
sequences. -/
theorem decodeHtml_eq_self {s : Str}
    (h1 : ¬ ("&lt;".toList <:+: s)) (h2 : ¬ ("&gt;".toList <:+: s))
    (h3 : ¬ ("&#039;".toList <:+: s)) (h4 : ¬ ("&quot;".toList <:+: s))
    (h5 : ¬ ("&amp;".toList <:+: s)) (h6 : ¬ ("\\u003C".toList <:+: s))
    (h7 : ¬ ("\\u003E".toList <:+: s)) : decodeHtml s = s := by
  unfold decodeHtml
  rw [replaceAll_id_of_no_occ h1, replaceAll_id_of_no_occ h2,
    replaceAll_id_of_no_occ h3, replaceAll_id_of_no_occ h4,
    replaceAll_id_of_no_occ h5, replaceAll_id_of_no_occ h6,
    replaceAll_id_of_no_occ h7]

theorem mem_firstOccs {α : Type} [DecidableEq α] (a : α) :
    ∀ l : List α, a ∈ firstOccs l ↔ a ∈ l := by
  intro l
  induction l with
  | nil => simp [firstOccs]
  | cons x xs ih =>
    simp only [firstOccs, List.mem_cons, List.mem_filter, bne_iff_ne, ih]
    constructor
    · rintro (rfl | ⟨h, _⟩)
      · exact Or.inl rfl
      · exact Or.inr h
    · rintro (rfl | h)
      · exact Or.inl rfl
      · by_cases hax : a = x
        · exact Or.inl hax
        · exact Or.inr ⟨h, hax⟩

theorem nodup_firstOccs {α : Type} [DecidableEq α] :
    ∀ l : List α, (firstOccs l).Nodup := by
  intro l
  induction l with
  | nil => simp [firstOccs]
  | cons x xs ih =>
    simp only [firstOccs, List.nodup_cons]
    refine ⟨?_, ih.filter _⟩
    intro hx
    have := (List.mem_filter.1 hx).2
    simp at this

theorem firstOccs_append_singleton {α : Type} [DecidableEq α] (k : α) :
    ∀ l : List α,
      firstOccs (l ++ [k]) = if k ∈ l then firstOccs l else firstOccs l ++ [k] := by
  intro l
  induction l with
  | nil => simp [firstOccs]
  | cons x xs ih =>
    by_cases hk : k ∈ xs
    · rw [List.cons_append]
      simp only [firstOccs, ih, if_pos hk, if_pos (List.mem_cons.2 (Or.inr hk))]
    · rw [List.cons_append]
      simp only [firstOccs, ih, if_neg hk, List.filter_append]
      by_cases hkx : k = x
      · subst hkx
        simp [List.mem_cons]
      · have : k ∈ x :: xs ↔ False := by simp [hkx, hk]
        rw [if_neg (this.not.2 not_false)]
        simp [hkx]

theorem mem_insertKey (a k : Nat) : ∀ l, a ∈ insertKey k l ↔ a = k ∨ a ∈ l := by
  intro l
  induction l with
  | nil => simp [insertKey]
  | cons x xs ih =>
    simp only [insertKey]
    by_cases h : k ≤ x
    · simp [if_pos h]
    · simp only [if_neg h, List.mem_cons, ih]
      tauto

theorem mem_sortKeys (a : Nat) : ∀ l, a ∈ sortKeys l ↔ a ∈ l := by
  intro l
  induction l with
  | nil => simp [sortKeys]
  | cons k ks ih => simp [sortKeys, mem_insertKey, ih]

theorem insertKey_eq_cons_of_le {k : Nat} :
    ∀ {l : List Nat}, (∀ a ∈ l, k ≤ a) → insertKey k l = k :: l := by
  intro l h
  cases l with
  | nil => rfl
  | cons x xs =>
    simp only [insertKey, if_pos (h x (List.mem_cons_self x xs))]

theorem sortKeys_eq_self_of_sorted :
    ∀ {l : List Nat}, l.Pairwise (· ≤ ·) → sortKeys l = l := by
  intro l h
  induction l with
  | nil => rfl
  | cons x xs ih =>
    rcases List.pairwise_cons.1 h with ⟨hx, hxs⟩
    simp only [sortKeys, ih hxs]
    exact insertKey_eq_cons_of_le hx

theorem lookupVal_map_pair {β : Type} (f : Nat → β) (q : Nat) :
    ∀ ks : List Nat,
      lookupVal (ks.map (fun k => (k, f k))) q = if q ∈ ks then some (f q) else none := by
  intro ks
  induction ks with
  | nil => simp [lookupVal]
  | cons k ks ih =>
    simp only [List.map_cons, lookupVal, ih]
    by_cases h : q = k
    · subst h
      simp
    · simp [h]

theorem filterMap_eq_map_of_forall {α β : Type} {g : α → Option β} {f : α → β} :
    ∀ {l : List α}, (∀ x ∈ l, g x = some (f x)) → l.filterMap g = l.map f := by
  intro l h
  induction l with
  | nil => rfl
  | cons x xs ih =>
    rw [List.filterMap_cons, h x (List.mem_cons_self x xs), List.map_cons,
      ih (fun y hy => h y (List.mem_cons_of_mem x hy))]

theorem specFaqCat_name (faqs : List FaqRow) (n : Str) :
    (specFaqCat faqs n).name = n := rfl

theorem find?_map_specFaqCat (faqs : List FaqRow) (m : Str) :
    ∀ ns : List Str,
      ((ns.map (specFaqCat faqs)).find? (fun c => c.name == m)).isSome = true ↔
        m ∈ ns := by
  intro ns
  induction ns with
  | nil => simp
  | cons n ns ih =>
    simp only [List.map_cons, List.find?_cons, specFaqCat_name]
    by_cases h : n = m
    · subst h
      simp
    · have hb : (n == m) = false := beq_false_of_ne h
      rw [hb]
      simp only [List.mem_cons, ih]
      constructor
      · exact fun h' => Or.inr h'
      · rintro (rfl | h')
        · exact absurd rfl h
        · exact h'

theorem pushFaqItem_map (faqs : List FaqRow) (m : Str) (it : FaqItem) :
    ∀ ns : List Str, ns.Nodup → m ∈ ns →
      pushFaqItem (ns.map (specFaqCat faqs)) m it =
        ns.map (fun n =>
          if n = m then
            { specFaqCat faqs n with items := (specFaqCat faqs n).items ++ [it] }
          else specFaqCat faqs n) := by
  intro ns
  induction ns with
  | nil => intro _ h; simp at h
  | cons n ns ih =>
    intro hnd hm
    rcases List.nodup_cons.1 hnd with ⟨hn, hnd'⟩
    simp only [List.map_cons, pushFaqItem, specFaqCat_name]
    by_cases h : n = m
    · subst h
      rw [if_pos rfl, if_pos rfl]
      congr 1
      refine (List.map_congr_left ?_).symm
      intro a ha
      rw [if_neg (fun ham : a = n => hn (ham ▸ ha))]
    · rw [if_neg h, if_neg h]
      congr 1
      exact ih hnd' (List.mem_cons.1 hm |>.resolve_left (fun hmn => h hmn.symm))

theorem specFaqCat_append_ne (done : List FaqRow) (f : FaqRow) {n : Str}
    (h : n ≠ f.category_name) : specFaqCat (done ++ [f]) n = specFaqCat done n := by
  unfold specFaqCat
  rw [List.filter_append]
  have : (List.filter (fun g => g.category_name == n) [f]) = [] := by
    simp [beq_false_of_ne (fun h' => h h'.symm)]
  rw [this, List.append_nil]

theorem specFaqCat_append_eq (done : List FaqRow) (f : FaqRow) :
    specFaqCat (done ++ [f]) f.category_name =
      { specFaqCat done f.category_name with
        items := (specFaqCat done f.category_name).items ++ [faqItem f] } := by
  unfold specFaqCat
  rw [List.filter_append]
  have : (List.filter (fun g => g.category_name == f.category_name) [f]) = [f] := by
    simp
  rw [this, List.map_append, List.map_singleton]

theorem faqStep_found {acc : List FaqCategory} {f : FaqRow}
    (h : (acc.find? (fun c => c.name == f.category_name)).isSome = true) :
    faqStep acc f = pushFaqItem acc f.category_name (faqItem f) := by
  unfold faqStep
  rw [if_pos h]

theorem faqStep_not_found {acc : List FaqCategory} {f : FaqRow}
    (h : (acc.find? (fun c => c.name == f.category_name)).isSome = false) :
    faqStep acc f = acc ++ [{ name := f.category_name, items := [faqItem f] }] := by
  unfold faqStep
  rw [if_neg (by simp [h])]

theorem faqStep_spec (done : List FaqRow) (f : FaqRow) :
    faqStep (specFaqs done) f = specFaqs (done ++ [f]) := by
  by_cases hm : f.category_name ∈ done.map FaqRow.category_name
  · have hfound : ((specFaqs done).find?
        (fun c => c.name == f.category_name)).isSome = true :=
      (find?_map_specFaqCat done f.category_name _).2 ((mem_firstOccs _ _).2 hm)
    rw [faqStep_found hfound]
    unfold specFaqs
    rw [pushFaqItem_map done f.category_name (faqItem f) _
      (nodup_firstOccs _) ((mem_firstOccs _ _).2 hm)]
    rw [List.map_append, List.map_singleton, firstOccs_append_singleton, if_pos hm]
    refine List.map_congr_left ?_
    intro n _
    by_cases h : n = f.category_name
    · subst h
      rw [if_pos rfl, specFaqCat_append_eq]
    · rw [if_neg h, specFaqCat_append_ne done f h]
  · have hnfound : ((specFaqs done).find?
        (fun c => c.name == f.category_name)).isSome = false := by
      rw [← Bool.not_eq_true]
      intro hcontra
      exact hm ((mem_firstOccs _ _).1
        ((find?_map_specFaqCat done f.category_name _).1 hcontra))
    rw [faqStep_not_found hnfound]
    unfold specFaqs
    rw [List.map_append, List.map_singleton, firstOccs_append_singleton, if_neg hm,
      List.map_append, List.map_singleton]
    congr 1
    · refine List.map_congr_left ?_
      intro n hn
      have hn' : n ∈ done.map FaqRow.category_name := (mem_firstOccs _ _).1 hn
      exact (specFaqCat_append_ne done f (fun h => hm (h ▸ hn'))).symm
    · have hempty : List.filter (fun g => g.category_name == f.category_name) done = [] := by
        rw [List.filter_eq_nil_iff]
        intro g hg
        simp only [Bool.not_eq_true]
        exact beq_false_of_ne
          (fun h => hm (h ▸ List.mem_map_of_mem FaqRow.category_name hg))
      rw [specFaqCat_append_eq]
      unfold specFaqCat
      rw [hempty]
      rfl

theorem faqReduce_spec :
    ∀ (rest done : List FaqRow),
      faqReduce rest (specFaqs done) = specFaqs (done ++ rest) := by
  intro rest
  induction rest with
  | nil => intro done; rw [List.append_nil]; rfl
  | cons f fs ih =>
    intro done
    show faqReduce fs (faqStep (specFaqs done) f) = _
    rw [faqStep_spec done f, ih (done ++ [f]), List.append_assoc, List.singleton_append]

theorem buildItem_ok {row : MenuRow} {it : MenuItem}
    (h : buildItem row = Except.ok it) : it = specItem row := by
  unfold buildItem at h
  cases hp : row.price with
  | none => rw [hp] at h; exact absurd h (by simp)
  | some p =>
    rw [hp] at h
    have := Except.ok.inj h
    rw [← this]
    unfold specItem
    rw [hp]
    rfl

theorem buildItem_ok_of_price {row : MenuRow} {p : Str} (hp : row.price = some p) :
    buildItem row = Except.ok (specItem row) := by
  unfold buildItem specItem
  rw [hp]
  rfl

theorem specCatFor_append_ne (done : List MenuRow) (row : MenuRow) {k : Nat}
    (h : k ≠ row.category_id) :
    specCatFor (done ++ [row]) k = specCatFor done k := by
  unfold specCatFor
  have hfind : List.find? (fun r => r.category_id == k) [row] = none := by
    simp [beq_false_of_ne (fun h' => h h'.symm)]
  have hfilter : List.filter (isItemRow k) [row] = [] := by
    simp [isItemRow, beq_false_of_ne (fun h' => h h'.symm)]
  rw [List.find?_append, hfind, Option.or_none, List.filter_append, hfilter,
    List.append_nil]

theorem find?_isSome_of_mem_keys {done : List MenuRow} {k : Nat}
    (h : k ∈ done.map MenuRow.category_id) :
    (List.find? (fun r => r.category_id == k) done).isSome = true := by
  rw [List.find?_isSome]
  obtain ⟨r, hr, hrk⟩ := List.mem_map.1 h
  exact ⟨r, hr, by simp [hrk]⟩

theorem find?_eq_none_of_not_mem_keys {done : List MenuRow} {k : Nat}
    (h : k ∉ done.map MenuRow.category_id) :
    List.find? (fun r => r.category_id == k) done = none := by
  rw [List.find?_eq_none]
  intro r hr
  simp only [Bool.not_eq_true]
  exact beq_false_of_ne (fun h' => h (h' ▸ List.mem_map_of_mem MenuRow.category_id hr))

theorem specCatFor_append_mem_truthy (done : List MenuRow) (row : MenuRow)
    (hmem : row.category_id ∈ done.map MenuRow.category_id)
    (ht : jsTruthyNat row.id = true) :
    specCatFor (done ++ [row]) row.category_id =
      catPush (specCatFor done row.category_id) (specItem row) := by
  have hsome := find?_isSome_of_mem_keys hmem
  cases hfind : List.find? (fun r => r.category_id == row.category_id) done with
  | none => rw [hfind] at hsome; simp at hsome
  | some r0 =>
    have hfilter : List.filter (isItemRow row.category_id) [row] = [row] := by
      simp [isItemRow, ht]
    unfold specCatFor
    rw [List.find?_append, hfind, List.filter_append, hfilter, Option.or,
      List.map_append, List.map_singleton]
    rfl

theorem specCatFor_append_mem_falsy (done : List MenuRow) (row : MenuRow)
    (hmem : row.category_id ∈ done.map MenuRow.category_id)
    (ht : jsTruthyNat row.id = false) :
    specCatFor (done ++ [row]) row.category_id = specCatFor done row.category_id := by
  have hsome := find?_isSome_of_mem_keys hmem
  cases hfind : List.find? (fun r => r.category_id == row.category_id) done with
  | none => rw [hfind] at hsome; simp at hsome
  | some r0 =>
    have hfilter : List.filter (isItemRow row.category_id) [row] = [] := by
      simp [isItemRow, ht]
    unfold specCatFor
    rw [List.find?_append, hfind, List.filter_append, hfilter, Option.or,
      List.append_nil]

theorem specCatFor_append_new (done : List MenuRow) (row : MenuRow)
    (hmem : row.category_id ∉ done.map MenuRow.category_id) :
    specCatFor (done ++ [row]) row.category_id =
      { name := row.category_name
        slug := row.category_slug
        description := row.category_description
        items := if jsTruthyNat row.id then [specItem row] else [] } := by
  have hnone := find?_eq_none_of_not_mem_keys hmem
  have hfilter0 : List.filter (isItemRow row.category_id) done = [] := by
    rw [List.filter_eq_nil_iff]
    intro r hr
    simp only [isItemRow, Bool.and_eq_true, not_and, Bool.not_eq_true]
    intro hk
    have hk' : r.category_id = row.category_id := by simpa using hk
    exact absurd (hk' ▸ List.mem_map_of_mem MenuRow.category_id hr) hmem
  unfold specCatFor
  rw [List.find?_append, hnone, Option.or, List.find?_cons]
  have hself : (row.category_id == row.category_id) = true := by simp
  rw [hself]
  rw [List.filter_append, hfilter0, List.nil_append]
  by_cases ht : jsTruthyNat row.id
  · have : List.filter (isItemRow row.category_id) [row] = [row] := by
      simp [isItemRow, ht]
    rw [this, if_pos ht, List.map_singleton]
  · have hf : jsTruthyNat row.id = false := by simpa using ht
    have : List.filter (isItemRow row.category_id) [row] = [] := by
      simp [isItemRow, hf]
    rw [this, if_neg ht, List.map_nil]

theorem menuStep_err {acc : List (Nat × MenuCategory)} {row : MenuRow} {e : Str}
    (ht : jsTruthyNat row.id = true) (hb : buildItem row = Except.error e) :
    menuStep acc row = Except.error e := by
  simp [menuStep, ht, hb]

theorem menuStep_known_truthy {acc : List (Nat × MenuCategory)} {row : MenuRow}
    {it : MenuItem} (hl : (lookupVal acc row.category_id).isSome = true)
    (ht : jsTruthyNat row.id = true) (hb : buildItem row = Except.ok it) :
    menuStep acc row = Except.ok (pushItem acc row.category_id it) := by
  simp [menuStep, hl, ht, hb]

theorem menuStep_known_falsy {acc : List (Nat × MenuCategory)} {row : MenuRow}
    (hl : (lookupVal acc row.category_id).isSome = true)
    (ht : jsTruthyNat row.id = false) :
    menuStep acc row = Except.ok acc := by
  simp [menuStep, hl, ht]

theorem menuStep_new_truthy {acc : List (Nat × MenuCategory)} {row : MenuRow}
    {it : MenuItem} (hl : (lookupVal acc row.category_id).isSome = false)
    (ht : jsTruthyNat row.id = true) (hb : buildItem row = Except.ok it) :
    menuStep acc row =
      Except.ok (pushItem (acc ++ [(row.category_id, newCategory row)])
        row.category_id it) := by
  simp [menuStep, hl, ht, hb]

theorem menuStep_new_falsy {acc : List (Nat × MenuCategory)} {row : MenuRow}
    (hl : (lookupVal acc row.category_id).isSome = false)
    (ht : jsTruthyNat row.id = false) :
    menuStep acc row = Except.ok (acc ++ [(row.category_id, newCategory row)]) := by
  simp [menuStep, hl, ht]

theorem pushItem_map_pair (f : Nat → MenuCategory) (m : Nat) (it : MenuItem)
    (ks : List Nat) :
    pushItem (ks.map (fun k => (k, f k))) m it =
      ks.map (fun k => (k, if k = m then catPush (f k) it else f k)) := by
  unfold pushItem
  rw [List.map_map]
  refine List.map_congr_left ?_
  intro k _
  by_cases h : k = m
  · simp [Function.comp, h]
  · simp [Function.comp, h]

theorem specMenuAcc_map_fst (rows : List MenuRow) :
    (specMenuAcc rows).map Prod.fst = firstOccs (rows.map MenuRow.category_id) := by
  unfold specMenuAcc
  rw [List.map_map]
  have h : (Prod.fst ∘ fun k : Nat => (k, specCatFor rows k)) = id := rfl
  rw [h, List.map_id]

theorem lookupVal_specMenuAcc (rows : List MenuRow) (q : Nat)
    (hq : q ∈ firstOccs (rows.map MenuRow.category_id)) :
    lookupVal (specMenuAcc rows) q = some (specCatFor rows q) := by
  unfold specMenuAcc
  rw [lookupVal_map_pair, if_pos hq]

theorem lookupVal_specMenuAcc_isSome (rows : List MenuRow) (q : Nat) :
    (lookupVal (specMenuAcc rows) q).isSome = true ↔
      q ∈ rows.map MenuRow.category_id := by
  unfold specMenuAcc
  rw [lookupVal_map_pair]
  by_cases h : q ∈ firstOccs (rows.map MenuRow.category_id)
  · simp only [if_pos h, Option.isSome_some]
    simp [(mem_firstOccs _ _).1 h]
  · simp only [if_neg h, Option.isSome_none]
    simp [(mem_firstOccs q _).not.1 h]

theorem menuReduce_cons (row : MenuRow) (rest : List MenuRow)
    (acc : List (Nat × MenuCategory)) :
    menuReduce (row :: rest) acc =
      match menuStep acc row with
      | Except.ok acc2 => menuReduce rest acc2
      | Except.error e => Except.error e := rfl

theorem menuStep_spec {done : List MenuRow} {row : MenuRow}
    {a' : List (Nat × MenuCategory)}
    (h : menuStep (specMenuAcc done) row = Except.ok a') :
    a' = specMenuAcc (done ++ [row]) := by
  have hkeys : (done ++ [row]).map MenuRow.category_id =
      done.map MenuRow.category_id ++ [row.category_id] := by
    rw [List.map_append, List.map_singleton]
  by_cases hm : row.category_id ∈ done.map MenuRow.category_id
  · have hl : (lookupVal (specMenuAcc done) row.category_id).isSome = true :=
      (lookupVal_specMenuAcc_isSome done row.category_id).2 hm
    by_cases ht : jsTruthyNat row.id = true
    · cases hb : buildItem row with
      | error e => rw [menuStep_err ht hb] at h; exact absurd h (by simp)
      | ok it =>
        rw [menuStep_known_truthy hl ht hb] at h
        rw [← Except.ok.inj h, buildItem_ok hb]
        unfold specMenuAcc
        rw [pushItem_map_pair, hkeys, firstOccs_append_singleton, if_pos hm]
        refine List.map_congr_left ?_
        intro k _
        by_cases hkm : k = row.category_id
        · subst hkm
          rw [if_pos rfl, specCatFor_append_mem_truthy done row hm ht]
        · rw [if_neg hkm, specCatFor_append_ne done row hkm]
    · have ht' : jsTruthyNat row.id = false := by simpa using ht
      rw [menuStep_known_falsy hl ht'] at h
      rw [← Except.ok.inj h]
      unfold specMenuAcc
      rw [hkeys, firstOccs_append_singleton, if_pos hm]
      refine List.map_congr_left ?_
      intro k _
      by_cases hkm : k = row.category_id
      · subst hkm
        rw [specCatFor_append_mem_falsy done row hm ht']
      · rw [specCatFor_append_ne done row hkm]
  · have hl : (lookupVal (specMenuAcc done) row.category_id).isSome = false := by
      rw [← Bool.not_eq_true]
      intro hc
      exact hm ((lookupVal_specMenuAcc_isSome done row.category_id).1 hc)
    by_cases ht : jsTruthyNat row.id = true
    · cases hb : buildItem row with
      | error e => rw [menuStep_err ht hb] at h; exact absurd h (by simp)
      | ok it =>
        rw [menuStep_new_truthy hl ht hb] at h
        rw [← Except.ok.inj h, buildItem_ok hb]
        have hsplit : pushItem (specMenuAcc done ++
              [(row.category_id, newCategory row)]) row.category_id (specItem row) =
            pushItem (specMenuAcc done) row.category_id (specItem row) ++
              pushItem [(row.category_id, newCategory row)]
                row.category_id (specItem row) := by
          unfold pushItem
          rw [List.map_append]
        rw [hsplit]
        unfold specMenuAcc
        rw [pushItem_map_pair, hkeys, firstOccs_append_singleton, if_neg hm,
          List.map_append, List.map_singleton]
        congr 1
        · refine List.map_congr_left ?_
          intro k hk
          have hkm : k ≠ row.category_id :=
            fun hkm => hm (hkm ▸ (mem_firstOccs _ _).1 hk)
          rw [if_neg hkm, specCatFor_append_ne done row hkm]
        · unfold pushItem
          rw [List.map_singleton, if_pos rfl]
          rw [specCatFor_append_new done row hm, if_pos ht]
          rfl
    · have ht' : jsTruthyNat row.id = false := by simpa using ht
      rw [menuStep_new_falsy hl ht'] at h
      rw [← Except.ok.inj h]
      unfold specMenuAcc
      rw [hkeys, firstOccs_append_singleton, if_neg hm, List.map_append,
        List.map_singleton]
      congr 1
      · refine List.map_congr_left ?_
        intro k hk
        have hkm : k ≠ row.category_id :=
          fun hkm => hm (hkm ▸ (mem_firstOccs _ _).1 hk)
        rw [specCatFor_append_ne done row hkm]
      · rw [specCatFor_append_new done row hm, if_neg ht]
        rfl

theorem menuReduce_spec :
    ∀ (rest done : List MenuRow) {final : List (Nat × MenuCategory)},
      menuReduce rest (specMenuAcc done) = Except.ok final →
      final = specMenuAcc (done ++ rest) := by
  intro rest
  induction rest with
  | nil =>
    intro done final h
    rw [List.append_nil, ← Except.ok.inj h]
  | cons r rs ih =>
    intro done final h
    rw [menuReduce_cons] at h
    cases hstep : menuStep (specMenuAcc done) r with
    | error e =>
      rw [hstep] at h
      have h2 : (Except.error e : Except Str (List (Nat × MenuCategory))) =
          Except.ok final := h
      exact absurd h2 (by simp)
    | ok a' =>
      rw [hstep] at h
      have h2 : menuReduce rs a' = Except.ok final := h
      rw [menuStep_spec hstep] at h2
      rw [ih (done ++ [r]) h2, List.append_assoc, List.singleton_append]

theorem objectValues_specMenuAcc (rows : List MenuRow) :
    objectValues (specMenuAcc rows) = specMenuSorted rows := by
  unfold objectValues specMenuSorted
  rw [specMenuAcc_map_fst]
  refine filterMap_eq_map_of_forall ?_
  intro q hq
  exact lookupVal_specMenuAcc rows q ((mem_sortKeys q _).1 hq)

/-- What the `/api/menu` handler computes whenever the reduce does not
throw: the spec-prescribed category entries, in ascending key order. -/
theorem apiMenu_spec {rows : List MenuRow} {cats : List MenuCategory}
    (h : apiMenu rows = Except.ok cats) : cats = specMenuSorted rows := by
  unfold apiMenu at h
  cases hred : menuReduce rows [] with
  | error e => rw [hred] at h; exact absurd h (by simp)
  | ok acc =>
    rw [hred] at h
    have h' : Except.ok (objectValues acc) = Except.ok cats := h
    have hacc : acc = specMenuAcc rows := by
      have h0 : menuReduce rows (specMenuAcc []) = Except.ok acc := hred
      have := menuReduce_spec rows [] h0
      rwa [List.nil_append] at this
    rw [← Except.ok.inj h', hacc, objectValues_specMenuAcc]

theorem firstOccs_pairwise_of_pairwise :
    ∀ {l : List Nat}, l.Pairwise (· ≤ ·) → (firstOccs l).Pairwise (· ≤ ·) := by
  intro l h
  induction l with
  | nil => exact List.Pairwise.nil
  | cons x xs ih =>
    rcases List.pairwise_cons.1 h with ⟨hx, hxs⟩
    refine List.pairwise_cons.2 ⟨?_, (ih hxs).filter _⟩
    intro a ha
    exact hx a ((mem_firstOccs a xs).1 (List.mem_filter.1 ha).1)

theorem specCatFor_items {rows : List MenuRow} {k : Nat}
    (hk : k ∈ rows.map MenuRow.category_id) :
    (specCatFor rows k).items = (rows.filter (isItemRow k)).map specItem := by
  have hsome := find?_isSome_of_mem_keys hk
  cases hfind : rows.find? (fun r => r.category_id == k) with
  | none => rw [hfind] at hsome; simp at hsome
  | some r0 =>
    unfold specCatFor
    rw [hfind]

theorem menuStep_ok (acc : List (Nat × MenuCategory)) {row : MenuRow}
    (h : jsTruthyNat row.id = true → row.price ≠ none) :
    ∃ a', menuStep acc row = Except.ok a' := by
  by_cases ht : jsTruthyNat row.id = true
  · cases hp : row.price with
    | none => exact absurd hp (h ht)
    | some p =>
      have hb := buildItem_ok_of_price hp
      by_cases hl : (lookupVal acc row.category_id).isSome = true
      · exact ⟨_, menuStep_known_truthy hl ht hb⟩
      · exact ⟨_, menuStep_new_truthy (by simpa using hl) ht hb⟩
  · have ht' : jsTruthyNat row.id = false := by simpa using ht
    by_cases hl : (lookupVal acc row.category_id).isSome = true
    · exact ⟨_, menuStep_known_falsy hl ht'⟩
    · exact ⟨_, menuStep_new_falsy (by simpa using hl) ht'⟩

theorem menuReduce_ok :
    ∀ (rows : List MenuRow) (acc : List (Nat × MenuCategory)),
      (∀ r ∈ rows, jsTruthyNat r.id = true → r.price ≠ none) →
      ∃ acc2, menuReduce rows acc = Except.ok acc2 := by
  intro rows
  induction rows with
  | nil => exact fun acc _ => ⟨acc, rfl⟩
  | cons r rs ih =>
    intro acc h
    obtain ⟨a', ha'⟩ := menuStep_ok acc (h r (List.mem_cons_self r rs))
    obtain ⟨acc2, hacc2⟩ := ih a' (fun g hg => h g (List.mem_cons_of_mem r hg))
    refine ⟨acc2, ?_⟩
    rw [menuReduce_cons, ha']
    exact hacc2

theorem jsOrStr_falsy {a : Option Str} {d : Str} (h : jsTruthyStr a = false) :
    jsOrStr a d = d := by
  cases a with
  | none => rfl
  | some s =>
    have : s.isEmpty = true := by simpa [jsTruthyStr] using h
    simp [jsOrStr, this]

theorem jsOrStr_truthy {a : Option Str} {d : Str} (h : jsTruthyStr a = true) :
    a = some (jsOrStr a d) := by
  cases a with
  | none => simp [jsTruthyStr] at h
  | some s =>
    have : s.isEmpty = false := by simpa [jsTruthyStr] using h
    simp [jsOrStr, this]

theorem jsOrStr_ne_nil {a : Option Str} {d : Str} (hd : d ≠ []) :
    jsOrStr a d ≠ [] := by
  cases a with
  | none => exact hd
  | some s =>
    by_cases hs : s.isEmpty = true
    · simpa [jsOrStr, hs] using hd
    · have hs' : s.isEmpty = false := by simpa using hs
      simp only [jsOrStr, hs', Bool.false_eq_true, if_false]
      exact fun hc => hs (by simp [hc])

theorem jsOrNat_falsy {a : Option Nat} {d : Nat} (h : jsTruthyNat a = false) :
    jsOrNat a d = d := by
  cases a with
  | none => rfl
  | some n =>
    have : (n == 0) = true := by simpa [jsTruthyNat] using h
    simp [jsOrNat, this]

theorem jsOrNat_truthy {a : Option Nat} {d : Nat} (h : jsTruthyNat a = true) :
    a = some (jsOrNat a d) := by
  cases a with
  | none => simp [jsTruthyNat] at h
  | some n =>
    have : (n == 0) = false := by simpa [jsTruthyNat] using h
    simp [jsOrNat, this]

theorem jsOrNat_ne_zero {a : Option Nat} {d : Nat} (hd : d ≠ 0) :
    jsOrNat a d ≠ 0 := by
  cases a with
  | none => exact hd
  | some n =>
    by_cases hn : (n == 0) = true
    · simpa [jsOrNat, hn] using hd
    · have hn' : (n == 0) = false := by simpa using hn
      simp only [jsOrNat, hn', Bool.false_eq_true, if_false]
      simpa using hn

/-- C1, amended: whenever the menu grouping succeeds, its categories are the
spec-prescribed entries (header from the first row of the key, items from
the key's truthy-id rows in input row order) in ascending `category_id`
order; when the input rows arrive sorted by `category_id` — which the
query's `ORDER BY c.id, m.id` guarantees — this coincides with
first-occurrence order, as the original claim states.  (As stated, over all
input sequences, the claim is false: see the counterexample.) -/
theorem claim_C1_menu_category_order {rows : List MenuRow}
    {cats : List MenuCategory} (h : apiMenu rows = Except.ok cats) :
    cats = specMenuSorted rows ∧
    (List.Pairwise (· ≤ ·) (rows.map MenuRow.category_id) →
      cats = specMenuFirstOcc rows) := by
  refine ⟨apiMenu_spec h, fun hs => ?_⟩
  rw [apiMenu_spec h]
  unfold specMenuSorted specMenuFirstOcc
  rw [sortKeys_eq_self_of_sorted (firstOccs_pairwise_of_pairwise hs)]

/-- C1, counterexample: two childless categories arriving in descending key
order come out in ascending key order, not first-occurrence order. -/
theorem claim_C1_counterexample :
    apiMenu cexRowsC1 ≠ Except.ok (specMenuFirstOcc cexRowsC1) ∧
    (apiMenu cexRowsC1).map (List.map MenuCategory.name) =
      Except.ok ["A".toList, "B".toList] ∧
    (specMenuFirstOcc cexRowsC1).map MenuCategory.name =
      ["B".toList, "A".toList] := by decide

theorem claim_C1_witness :
    specMenuSorted witRowsC1 = specMenuFirstOcc witRowsC1 :=
  (claim_C1_menu_category_order
    (show apiMenu witRowsC1 = Except.ok (specMenuSorted witRowsC1) from rfl)).2
    (by decide)

/-- C2, amended: whenever the menu grouping succeeds, every key occurring in
the rows yields a category entry whose item count equals the number of its
rows with a truthy (non-null and non-zero) item identifier; a category all
of whose rows have a falsy identifier gets an empty item list.  (As stated,
with "non-null" in place of "truthy", the claim is false: a row whose id is
`0` is non-null but contributes no item — see the counterexample.) -/
theorem claim_C2_menu_item_counts {rows : List MenuRow}
    {cats : List MenuCategory} {k : Nat} (h : apiMenu rows = Except.ok cats)
    (hk : k ∈ rows.map MenuRow.category_id) :
    specCatFor rows k ∈ cats ∧
    (specCatFor rows k).items.length = (rows.filter (isItemRow k)).length ∧
    ((∀ r ∈ rows, r.category_id = k → jsTruthyNat r.id = false) →
      (specCatFor rows k).items = []) := by
  refine ⟨?_, ?_, ?_⟩
  · rw [apiMenu_spec h]
    unfold specMenuSorted
    exact List.mem_map_of_mem _ ((mem_sortKeys k _).2 ((mem_firstOccs k _).2 hk))
  · rw [specCatFor_items hk, List.length_map]
  · intro hall
    rw [specCatFor_items hk]
    have hfil : rows.filter (isItemRow k) = [] := by
      rw [List.filter_eq_nil_iff]
      intro r hr
      simp only [isItemRow, Bool.and_eq_true, not_and]
      intro hck
      have hrk : r.category_id = k := by simpa using hck
      rw [hall r hr hrk]
      simp
    rw [hfil, List.map_nil]

/-- C2, counterexample: a single row with the non-null item identifier `0`
yields a category with zero items, not one. -/
theorem claim_C2_counterexample :
    cexRowC2.id = some 0 ∧ cexRowC2.id ≠ none ∧
    ([cexRowC2].filter (fun r => r.id.isSome)).length = 1 ∧
    (apiMenu [cexRowC2]).map (List.map (fun c => c.items.length)) =
      Except.ok [0] := by decide

theorem claim_C2_witness :
    (specCatFor witRowsC2 1).items.length =
      (witRowsC2.filter (isItemRow 1)).length ∧
    (specCatFor witRowsC2 2).items = [] :=
  ⟨(claim_C2_menu_item_counts
      (show apiMenu witRowsC2 = Except.ok (specMenuSorted witRowsC2) from rfl)
      (by decide)).2.1,
   (claim_C2_menu_item_counts
      (show apiMenu witRowsC2 = Except.ok (specMenuSorted witRowsC2) from rfl)
      (by decide)).2.2 (by decide)⟩

/-- C3, amended: in every successfully built menu item, a falsy (null,
empty-string or zero) `image`/`currency`/`rating` field is replaced by the
fixed default (`/img/menu/default.jpg`, `$`, `5`), a truthy value passes
through unchanged, and the three output fields are always truthy — in
particular never null.  (As stated, with "null" in place of "falsy", the
claim is false: `''` and `0` are non-null but are replaced — see the
counterexample.) -/
theorem claim_C3_menu_item_defaults {row : MenuRow} {it : MenuItem}
    (h : buildItem row = Except.ok it) :
    (jsTruthyStr row.image = false → it.image = defaultImage) ∧
    (jsTruthyStr row.image = true → row.image = some it.image) ∧
    (jsTruthyStr row.currency = false → it.currency = "$".toList) ∧
    (jsTruthyStr row.currency = true → row.currency = some it.currency) ∧
    (jsTruthyNat row.rating = false → it.rating = 5) ∧
    (jsTruthyNat row.rating = true → row.rating = some it.rating) ∧
    it.image ≠ [] ∧ it.currency ≠ [] ∧ it.rating ≠ 0 := by
  rw [buildItem_ok h]
  exact ⟨fun hf => jsOrStr_falsy hf, fun ht => jsOrStr_truthy ht,
    fun hf => jsOrStr_falsy hf, fun ht => jsOrStr_truthy ht,
    fun hf => jsOrNat_falsy hf, fun ht => jsOrNat_truthy ht,
    jsOrStr_ne_nil (by decide), jsOrStr_ne_nil (by decide),
    jsOrNat_ne_zero (by decide)⟩

/-- C3, counterexample: an item row with the non-null values `''`, `''`, `0`
for image, currency and rating gets all three defaults instead of the
values themselves. -/
theorem claim_C3_counterexample :
    cexRowC3.image = some [] ∧ cexRowC3.image ≠ none ∧
    (buildItem cexRowC3).map MenuItem.image = Except.ok defaultImage ∧
    defaultImage ≠ [] ∧
    cexRowC3.currency = some [] ∧
    (buildItem cexRowC3).map MenuItem.currency = Except.ok "$".toList ∧
    "$".toList ≠ ([] : Str) ∧
    cexRowC3.rating = some 0 ∧
    (buildItem cexRowC3).map MenuItem.rating = Except.ok 5 := by decide

theorem claim_C3_witness :
    witRowC3.image = some (specItem witRowC3).image ∧
    witRowC3.currency = some (specItem witRowC3).currency ∧
    witRowC3.rating = some (specItem witRowC3).rating ∧
    (specItem witRowC3).image ≠ [] :=
  ⟨(claim_C3_menu_item_defaults
      (show buildItem witRowC3 = Except.ok (specItem witRowC3) from rfl)).2.1
      (by decide),
   (claim_C3_menu_item_defaults
      (show buildItem witRowC3 = Except.ok (specItem witRowC3) from rfl)).2.2.2.1
      (by decide),
   (claim_C3_menu_item_defaults
      (show buildItem witRowC3 = Except.ok (specItem witRowC3) from rfl)).2.2.2.2.2.1
      (by decide),
   (claim_C3_menu_item_defaults
      (show buildItem witRowC3 = Except.ok (specItem witRowC3) from rfl)).2.2.2.2.2.2.1⟩

/-- C4, amended: the grouping computation raises no error provided every row
with a truthy item identifier carries a non-null price; without that
proviso the claim is false, because `row.price.toString()` throws a
`TypeError` on a null price inside the grouping code — an error that
reaches the route's catch block without originating from the query (see
the counterexample). -/
theorem claim_C4_grouping_totality {rows : List MenuRow}
    (h : ∀ r ∈ rows, jsTruthyNat r.id = true → r.price ≠ none) :
    ∃ cats, apiMenu rows = Except.ok cats := by
  obtain ⟨acc2, hacc2⟩ := menuReduce_ok rows [] h
  refine ⟨objectValues acc2, ?_⟩
  unfold apiMenu
  rw [hacc2]

/-- C4, counterexample: a row with a truthy item id and a null price makes
the grouping itself throw. -/
theorem claim_C4_counterexample :
    cexRowC4.id ≠ none ∧
    apiMenu [cexRowC4] = Except.error
      "TypeError: Cannot read properties of null (reading toString)".toList := by
  decide

theorem claim_C4_witness : ∃ cats, apiMenu witRowsC1 = Except.ok cats :=
  claim_C4_grouping_totality (by decide)

/-- C5: the FAQ grouping places all rows sharing a `category_name` under
exactly one category entry containing exactly their `{title, text}` pairs
in input row order, and the entries appear in first-occurrence order of
the name: the handler's output equals the spec-prescribed grouping. -/
theorem claim_C5_faq_grouping (faqs : List FaqRow) :
    apiFaqs faqs = specFaqs faqs := by
  have h := faqReduce_spec faqs []
  rw [List.nil_append] at h
  exact h

/-- C6: in every successfully built menu item, an absent badge yields no
badge key, and a present badge containing the entity `&amp;` yields a
decoded badge containing a literal `&`. -/
theorem claim_C6_badge_decoding {row : MenuRow} {it : MenuItem}
    (h : buildItem row = Except.ok it) :
    (row.badge = none → it.badge = none) ∧
    (∀ b, row.badge = some b → "&amp;".toList <:+: b →
      it.badge = some (decodeHtml b) ∧ '&' ∈ decodeHtml b) := by
  rw [buildItem_ok h]
  constructor
  · intro hb
    show jsBadge row.badge = none
    rw [hb]
    rfl
  · intro b hb hamp
    have hbne : b ≠ [] := by
      intro h0
      rw [h0] at hamp
      exact absurd (List.infix_nil.1 hamp) (by decide)
    have hbe : b.isEmpty = false := by simpa [List.isEmpty_iff] using hbne
    constructor
    · show jsBadge row.badge = some (decodeHtml b)
      rw [hb]
      simp [jsBadge, hbe]
    · exact amp_mem_decodeHtml hamp

theorem claim_C6_witness :
    witItemC6.badge = some (decodeHtml "a&amp;b".toList) ∧
    '&' ∈ decodeHtml "a&amp;b".toList :=
  (claim_C6_badge_decoding
    (show buildItem witRowC6 = Except.ok witItemC6 from rfl)).2
    "a&amp;b".toList rfl (by decide)

/-- C7: `decodeHtml` maps each of the five HTML entities and the two
Unicode-escaped angle brackets to their literal characters, is the identity
on any string containing none of the seven sequences, and passes a missing
(`undefined`) input through unchanged instead of raising. -/
theorem claim_C7_decode_entities :
    decodeHtml "&lt;".toList = "<".toList ∧
    decodeHtml "&gt;".toList = ">".toList ∧
    decodeHtml "&#039;".toList = [Char.ofNat 39] ∧
    decodeHtml "&quot;".toList = "\"".toList ∧
    decodeHtml "&amp;".toList = "&".toList ∧
    decodeHtml "\\u003C".toList = "<".toList ∧
    decodeHtml "\\u003E".toList = ">".toList ∧
    (∀ s : Str, ¬ ("&lt;".toList <:+: s) → ¬ ("&gt;".toList <:+: s) →
      ¬ ("&#039;".toList <:+: s) → ¬ ("&quot;".toList <:+: s) →
      ¬ ("&amp;".toList <:+: s) → ¬ ("\\u003C".toList <:+: s) →
      ¬ ("\\u003E".toList <:+: s) → decodeHtml s = s) ∧
    decodeHtmlOpt none = none := by
  refine ⟨by decide, by decide, by decide, by decide, by decide, by decide,
    by decide, ?_, rfl⟩
  intro s h1 h2 h3 h4 h5 h6 h7
  exact decodeHtml_eq_self h1 h2 h3 h4 h5 h6 h7

theorem claim_C7_witness :
    decodeHtml "plain text".toList = "plain text".toList :=
  claim_C7_decode_entities.2.2.2.2.2.2.2.1 "plain text".toList
    (by decide) (by decide) (by decide) (by decide) (by decide) (by decide)
    (by decide)

/-- C8: every route converts a thrown error into a 500 reply carrying the
error's message verbatim — `{ error: message }` for data routes and
`{ status: ERROR, message }` for db-health — and produces no 500 when
nothing throws. -/
theorem claim_C8_error_propagation :
    (∀ (α : Type) (e : Str),
      dataRoute (Except.error e : Except Str α) = RouteReply.err 500 e) ∧
    (∀ (α : Type) (x : α), dataRoute (Except.ok x) = RouteReply.ok x) ∧
    (∀ e : Str,
      dbHealthRoute (Except.error e) = DbHealthReply.err 500 "ERROR".toList e) ∧
    dbHealthRoute (Except.ok ()) =
      DbHealthReply.ok "OK".toList "Database connection is successful".toList ∧
    (∀ e : Str, menuRoute (Except.error e) = RouteReply.err 500 e) ∧
    (∀ rows cats, apiMenu rows = Except.ok cats →
      menuRoute (Except.ok rows) = RouteReply.ok cats) ∧
    (∀ e : Str, faqRoute (Except.error e) = RouteReply.err 500 e) ∧
    (∀ rows, faqRoute (Except.ok rows) = RouteReply.ok (apiFaqs rows)) := by
  refine ⟨fun α e => rfl, fun α x => rfl, fun e => rfl, rfl, fun e => rfl, ?_,
    fun e => rfl, fun rows => rfl⟩
  intro rows cats h
  show (match apiMenu rows with
    | Except.ok cats => RouteReply.ok cats
    | Except.error e => RouteReply.err 500 e) = RouteReply.ok cats
  rw [h]

theorem claim_C8_witness :
    menuRoute (Except.ok ([] : List MenuRow)) =
      RouteReply.ok ([] : List MenuCategory) :=
  claim_C8_error_propagation.2.2.2.2.2.1 [] [] rfl

/-- C9: badge inclusion is decided by truthiness, not presence — a present
but falsy (empty-string) badge yields no badge key, a truthy badge yields
the decoded badge. -/
theorem claim_C9_badge_truthiness {row : MenuRow} {it : MenuItem} {b : Str}
    (h : buildItem row = Except.ok it) (hb : row.badge = some b) :
    (b = [] → it.badge = none) ∧ (b ≠ [] → it.badge = some (decodeHtml b)) := by
  rw [buildItem_ok h]
  constructor
  · intro h0
    show jsBadge row.badge = none
    rw [hb, h0]
    rfl
  · intro hne
    have hbe : b.isEmpty = false := by simpa [List.isEmpty_iff] using hne
    show jsBadge row.badge = some (decodeHtml b)
    rw [hb]
    simp [jsBadge, hbe]

theorem claim_C9_witness : witItemC9.badge = none :=
  (claim_C9_badge_truthiness
    (show buildItem witRowC9 = Except.ok witItemC9 from rfl) rfl).1 rfl

/-- C10: the `/api/health` handler is a constant function of the database
state — it always replies `{ status: OK }` and can never produce an error
reply. -/
theorem claim_C10_health_constant :
    (∀ db : Except Str Unit,
      healthRoute db = RouteReply.ok { status := "OK".toList }) ∧
    (∀ db1 db2 : Except Str Unit, healthRoute db1 = healthRoute db2) ∧
    (∀ (db : Except Str Unit) (s : Nat) (e : Str),
      healthRoute db ≠ RouteReply.err s e) := by
  refine ⟨fun db => rfl, fun db1 db2 => rfl, ?_⟩
  intro db s e h
  exact RouteReply.noConfusion h
